import Mathlib

/-!
Verification development for the alertbot alert normalization, classification
and routing engine (`app.py`, `routes_validation.py`).

Python values that flow through the engine (parsed JSON / YAML) are embedded
as the inductive type `PyVal`; dictionaries are association lists with string
keys in insertion order, which is also Python's dict iteration order.
-/

/-- Embedding of the Python values the engine manipulates: `None`, booleans,
integers, strings, lists, and string-keyed dictionaries (association lists in
insertion order).  YAML/JSON payloads never produce tuples or sets at the
points the claims touch, and floating-point numbers are outside the value
model. -/
inductive PyVal where
  | none : PyVal
  | bool : Bool → PyVal
  | int : Int → PyVal
  | str : String → PyVal
  | list : List PyVal → PyVal
  | dict : List (String × PyVal) → PyVal

/-- Python truthiness (`bool(v)`), matching `if v:` on the embedded values. -/
def PyVal.truthy : PyVal → Bool
  | .none => false
  | .bool b => b
  | .int n => n != 0
  | .str s => s != ""
  | .list l => !l.isEmpty
  | .dict d => !d.isEmpty

/-- Whether the value is Python `None` (`v is None`). -/
def PyVal.isNone : PyVal → Bool
  | .none => true
  | _ => false

/-- Python `v == s` against a string literal `s` (a non-string value compares
unequal to any string). -/
def PyVal.eqStr : PyVal → String → Bool
  | .str t, s => t = s
  | _, _ => false

/-- Escapes used by `pyReprStr`. -/
def pyReprStrChar (c : Char) : List Char :=
  if c = '\\' then ['\\', '\\']
  else if c = '\'' then ['\\', '\'']
  else if c = '\n' then ['\\', 'n']
  else if c = '\t' then ['\\', 't']
  else if c = '\r' then ['\\', 'r']
  else [c]

/-- Model of Python `repr` of a string: single-quoted with basic escapes. -/
def pyReprStr (s : String) : String :=
  "'" ++ String.mk (s.data.flatMap pyReprStrChar) ++ "'"

mutual

/-- Model of Python `repr` on the embedded values.  Strings are rendered with
single quotes and backslash escapes for the backslash, the quote, and the
three common control characters; list and dictionary literals follow Python's
bracketed comma-separated form.  No theorem below depends on the rendering of
nested containers. -/
def pyRepr : PyVal → String
  | .none => "None"
  | .bool true => "True"
  | .bool false => "False"
  | .int n => toString n
  | .str s => pyReprStr s
  | .list vs => "[" ++ pyReprList vs ++ "]"
  | .dict kvs => "\x7b" ++ pyReprDict kvs ++ "\x7d"

/-- Comma-joined `repr` of list elements. -/
def pyReprList : List PyVal → String
  | [] => ""
  | [v] => pyRepr v
  | v :: rest => pyRepr v ++ ", " ++ pyReprList rest

/-- Comma-joined `repr` of dictionary items. -/
def pyReprDict : List (String × PyVal) → String
  | [] => ""
  | [kv] => pyReprStr kv.1 ++ ": " ++ pyRepr kv.2
  | kv :: rest => pyReprStr kv.1 ++ ": " ++ pyRepr kv.2 ++ ", " ++ pyReprDict rest

end

/-- Model of Python `str(v)`: the string itself for strings, `repr` otherwise
(the repr/str distinction only matters for containers here). -/
def PyVal.toStr : PyVal → String
  | .str s => s
  | v => pyRepr v

/-- Lookup in an embedded dictionary: `Option.none` when the key is missing,
`some v` when present (so a key explicitly bound to Python `None` is
distinguished from an absent key, as in `dict.get`). -/
def alookup : List (String × PyVal) → String → Option PyVal
  | [], _ => Option.none
  | kv :: rest, k => if kv.1 = k then some kv.2 else alookup rest k

/-- Python `d.get(k)` (default `None`). -/
def dictGet (kvs : List (String × PyVal)) (k : String) : PyVal :=
  (alookup kvs k).getD .none

/-- Python `d.get(k, default)`. -/
def dictGetD (kvs : List (String × PyVal)) (k : String) (d : PyVal) : PyVal :=
  (alookup kvs k).getD d

/-- Python `v in d` for a string-keyed dict: key membership via equality with
the keys (a non-string value is never equal to a string key). -/
def keyMem (v : PyVal) (kvs : List (String × PyVal)) : Bool :=
  kvs.any fun kv => v.eqStr kv.1

/-- Coerce to a list of elements the way a `for` loop over a schema-validated
list section iterates it: a Python list yields its elements, anything else
yields nothing (the schema forbids non-list values in those positions). -/
def asList : PyVal → List PyVal
  | .list vs => vs
  | _ => []

/-- Items of a schema-validated mapping section: a Python dict yields its
items, anything else yields nothing. -/
def asDict : PyVal → List (String × PyVal)
  | .dict kvs => kvs
  | _ => []

/-- Whether the value is a Python dict (`isinstance(v, dict)`). -/
def PyVal.isDict : PyVal → Bool
  | .dict _ => true
  | _ => false

/-- Whether the value is a Python list (`isinstance(v, list)`). -/
def PyVal.isList : PyVal → Bool
  | .list _ => true
  | _ => false

/-- Python substring test `needle in hay` on character lists. -/
def containsSub : List Char → List Char → Bool
  | hay, needle =>
    if needle.isPrefixOf hay then true
    else
      match hay with
      | [] => false
      | _ :: t => containsSub t needle

/-- Python `needle in hay` on strings. -/
def pyStrIn (needle hay : String) : Bool :=
  containsSub hay.data needle.data

theorem containsSub_infix_iff (hay needle : List Char) :
    containsSub hay needle = true ↔ needle <:+: hay := by
  induction hay with
  | nil =>
    rw [containsSub]
    cases needle with
    | nil => simp
    | cons c cs => simp [List.isPrefixOf]
  | cons a t ih =>
    rw [containsSub]
    constructor
    · intro h
      split at h
      · next hp =>
        exact (List.isPrefixOf_iff_prefix.mp hp).isInfix
      · next hp =>
        obtain ⟨s, u, hsu⟩ := ih.mp h
        exact ⟨a :: s, u, by simp [← hsu]⟩
    · intro h
      obtain ⟨s, u, hsu⟩ := h
      cases s with
      | nil =>
        have hpre : needle <+: a :: t := ⟨u, by simpa using hsu⟩
        simp [List.isPrefixOf_iff_prefix.mpr hpre]
      | cons b s' =>
        rw [List.cons_append, List.cons_append] at hsu
        injection hsu with hb ht
        have hc : containsSub t needle = true := ih.mpr ⟨s', u, ht⟩
        split
        · rfl
        · exact hc

/- ── C1: Telegram message truncation (`send_message`, app.py lines 692-694) ── -/

/-- Embedding of the truncation step of `send_message` (app.py):
`if len(text) > 4000: text = text[:3997] + "…"`.  Python strings are modelled
as character lists; `len` counts characters and `…` is one character. -/
def truncateForTelegram (text : List Char) : List Char :=
  if text.length > 4000 then text.take 3997 ++ ['…'] else text

/- ── RuleMatcher (`_to_list`, `_match_rule`, app.py lines 240-291) ── -/

/-- Embedding of `_to_list` (app.py): `None` becomes the empty list, a list
keeps its non-`None` elements `str`-coerced, and any other value becomes a
one-element list of its `str` form.  Note that the empty string is not `None`
and therefore yields the one-element list `[""]`. -/
def toPyList : PyVal → List String
  | .none => []
  | .list vs => (vs.filter fun v => !v.isNone).map PyVal.toStr
  | v => [v.toStr]

/-- The rule's `match` block: `rule.get("match", rule)` (app.py line 249). -/
def ruleMatchBlock (rule : List (String × PyVal)) : PyVal :=
  (alookup rule "match").getD (.dict rule)

/-- The rule's `field` entry (`match.get("field")`); `None` when the match
block is not a mapping (that case returns False before the field is read). -/
def ruleFieldV (rule : List (String × PyVal)) : PyVal :=
  match ruleMatchBlock rule with
  | .dict m => dictGet m "field"
  | _ => .none

/-- The rule's `op` entry (`match.get("op")`). -/
def ruleOp (rule : List (String × PyVal)) : PyVal :=
  match ruleMatchBlock rule with
  | .dict m => dictGet m "op"
  | _ => .none

/-- The rule's `value` entry (`match.get("value")`). -/
def ruleValueV (rule : List (String × PyVal)) : PyVal :=
  match ruleMatchBlock rule with
  | .dict m => dictGet m "value"
  | _ => .none

/-- The bound field values: `_to_list(context.get(str(field)))`. -/
def ruleActuals (rule context : List (String × PyVal)) : List String :=
  toPyList (dictGet context (ruleFieldV rule).toStr)

/-- The rule's expected values: `_to_list(match.get("value"))`. -/
def ruleExpecteds (rule : List (String × PyVal)) : List String :=
  toPyList (ruleValueV rule)

/-- Characters with special meaning in Python regular expressions. -/
def reMetachars : List Char :=
  ['.', '^', '$', '*', '+', '?', '\x7b', '\x7d', '[', ']', '\\', '|', '(', ')']

/-- Model of Python `any(re.search(pattern, a) for a in actuals)` for the
pattern fragment this development evaluates: a pattern containing no regex
metacharacter is a literal and matches iff it occurs as a substring
(`re.search` is unanchored); a pattern containing a metacharacter is
conservatively mapped to a compile error — in particular the concrete pattern
`"("` used below genuinely raises `re.error` in Python (unterminated
subpattern).  No theorem relies on the error outcome for a pattern that
actually compiles. -/
def reSearchAll (pattern : String) (actuals : List String) : Except String Bool :=
  if pattern.data.all (fun c => !reMetachars.contains c) then
    .ok (actuals.any fun a => pyStrIn pattern a)
  else
    .error "re.error"

/-- Embedding of `_match_rule` (app.py lines 248-291).  The result is
`Except`-valued: `.error` models an uncaught Python exception escaping the
function (only the `regex` operator can raise, via `re.error`); `.ok b`
models a normal boolean return. -/
def matchRule (rule context : List (String × PyVal)) : Except String Bool :=
  if !(ruleMatchBlock rule).isDict then .ok false
  else if !(ruleFieldV rule).truthy || !(ruleOp rule).truthy then .ok false
  else
    let actuals := ruleActuals rule context
    if actuals.isEmpty then .ok false
    else
      let expecteds := ruleExpecteds rule
      let op := ruleOp rule
      if expecteds.isEmpty && !op.eqStr "eq" then .ok false
      else if op.eqStr "contains" then
        .ok (actuals.any fun a => pyStrIn (expecteds.headD "") a)
      else if op.eqStr "contains_any" then
        .ok (actuals.any fun a => expecteds.any fun n => pyStrIn n a)
      else if op.eqStr "regex" then
        reSearchAll (expecteds.headD "") actuals
      else if op.eqStr "in" then
        .ok (actuals.any fun a => expecteds.any fun e => a == e)
      else if op.eqStr "prefix_in" then
        .ok (actuals.any fun a => expecteds.any fun p => p.data.isPrefixOf a.data)
      else if op.eqStr "eq" then
        .ok (actuals.any fun a => a == expecteds.headD "")
      else .ok false

theorem ruleFieldV_truthy_isDict (rule : List (String × PyVal))
    (ht : (ruleFieldV rule).truthy = true) : (ruleMatchBlock rule).isDict = true := by
  unfold ruleFieldV at ht
  split at ht
  · next m heq => rw [heq]; rfl
  · exact absurd ht (by rw [PyVal.truthy]; simp)

/-- C1 counterexample: the claim says a 4500-character text is truncated to
exactly 4000 characters; the code (`text[:3997] + "…"`) in fact produces a
3998-character text. -/
theorem truncateForTelegram_c1_counterexample :
    (truncateForTelegram (List.replicate 4500 'a')).length = 3998 ∧
      (truncateForTelegram (List.replicate 4500 'a')).length ≠ 4000 := by
  have h : (truncateForTelegram (List.replicate 4500 'a')).length = 3998 := by
    rw [truncateForTelegram, if_pos (by rw [List.length_replicate]; norm_num)]
    simp only [List.length_append, List.length_take, List.length_replicate,
      List.length_cons, List.length_nil]
    omega
  exact ⟨h, by rw [h]; decide⟩

/-- C1 (amended): the notifier's truncation step caps long text at 3998
characters, not 4000: for text longer than 4000 characters it produces exactly
3998 characters ending in the ellipsis character, and text of length at most
4000 passes through unchanged. -/
theorem truncateForTelegram_amended (text : List Char) :
    (4000 < text.length →
      (truncateForTelegram text).length = 3998 ∧
        (truncateForTelegram text).getLast? = some '…') ∧
    (text.length ≤ 4000 → truncateForTelegram text = text) := by
  constructor
  · intro h
    rw [truncateForTelegram, if_pos h]
    refine ⟨?_, ?_⟩
    · simp only [List.length_append, List.length_take, List.length_cons,
        List.length_nil]
      omega
    · simp
  · intro h
    rw [truncateForTelegram, if_neg (by omega)]

/-- C1 witness for the amended theorem at concrete inputs: a 4001-character
text truncates to 3998 characters and a 1-character text is unchanged. -/
theorem truncateForTelegram_amended_witness :
    (truncateForTelegram (List.replicate 4001 'b')).length = 3998 ∧
      truncateForTelegram ['a'] = ['a'] :=
  ⟨((truncateForTelegram_amended (List.replicate 4001 'b')).1
      (by rw [List.length_replicate]; norm_num)).1,
    (truncateForTelegram_amended ['a']).2 (by decide)⟩

/-- C2: the claim says `_match_rule` never raises for any rule and context,
including the `regex` operator with an arbitrary operator-authored pattern.
For the rule `{field: "title", op: "regex", value: "("}` and context
`{title: "x"}` the code calls `re.search("(", "x")`, and the pattern `"("`
does not compile: Python raises `re.error`, which `_match_rule` does not
catch, so evaluation raises. -/
theorem matchRule_regex_raises :
    matchRule [("field", .str "title"), ("op", .str "regex"), ("value", .str "(")]
        [("title", .str "x")] = .error "re.error" := by
  rfl

/-- C3 counterexample: the claim says that a context holding a falsy value
such as the empty string for the rule's field makes matching return false
unconditionally.  For the rule `{field: "status", op: "contains", value: ""}`
and context `{status: ""}` the code binds the one-element (hence truthy)
value list `[""]` and returns True. -/
theorem matchRule_empty_string_counterexample :
    matchRule [("field", .str "status"), ("op", .str "contains"), ("value", .str "")]
        [("status", .str "")] = .ok true := by
  rfl

/-- C3 (amended): matching returns false whenever the rule's field resolves to
no string values in the context — the field is absent, bound to `None`, or
bound to an empty collection (a present falsy scalar such as the empty string
still binds one value and can match); and for `op=contains` with a present
field and a non-empty expected-value list the result is true iff the first
expected value occurs as a substring of some bound field value. -/
theorem matchRule_amended :
    (∀ (rule context : List (String × PyVal)),
        ruleActuals rule context = [] → matchRule rule context = .ok false) ∧
    (∀ (rule context : List (String × PyVal)),
        (ruleFieldV rule).truthy = true →
        ruleOp rule = .str "contains" →
        ruleActuals rule context ≠ [] →
        ruleExpecteds rule ≠ [] →
        matchRule rule context =
            .ok ((ruleActuals rule context).any fun a =>
              pyStrIn ((ruleExpecteds rule).headD "") a) ∧
          (matchRule rule context = .ok true ↔
            ∃ a ∈ ruleActuals rule context,
              ((ruleExpecteds rule).headD "").data <:+: a.data)) := by
  constructor
  · intro rule context h
    simp [matchRule, h]
  · intro rule context hfield hop hane hene
    have hd : (ruleMatchBlock rule).isDict = true := ruleFieldV_truthy_isDict rule hfield
    have hopt : (ruleOp rule).truthy = true := by rw [hop]; rfl
    have hcontains : (ruleOp rule).eqStr "contains" = true := by rw [hop]; rfl
    have hae : (ruleActuals rule context).isEmpty = false := by
      cases hx : ruleActuals rule context with
      | nil => exact absurd hx hane
      | cons a l => rfl
    have hee : (ruleExpecteds rule).isEmpty = false := by
      cases hx : ruleExpecteds rule with
      | nil => exact absurd hx hene
      | cons a l => rfl
    have hmain : matchRule rule context =
        .ok ((ruleActuals rule context).any fun a =>
          pyStrIn ((ruleExpecteds rule).headD "") a) := by
      rw [matchRule]
      simp [hd, hfield, hopt, hcontains, hae, hee]
    refine ⟨hmain, ?_⟩
    rw [hmain]
    simp only [Except.ok.injEq, List.any_eq_true]
    constructor
    · rintro ⟨a, ha, hin⟩
      exact ⟨a, ha, (containsSub_infix_iff _ _).mp hin⟩
    · rintro ⟨a, ha, hin⟩
      exact ⟨a, ha, (containsSub_infix_iff _ _).mpr hin⟩

/-- C3 witness for the amended theorem at concrete inputs: a rule whose field
is absent from the context evaluates to false, and a `contains` rule whose
value is a substring of the bound field value evaluates as the substring
test. -/
theorem matchRule_amended_witness :
    matchRule [("field", .str "service"), ("op", .str "contains"), ("value", .str "x")]
        [] = .ok false ∧
      matchRule
          [("field", .str "service"), ("op", .str "contains"), ("value", .str "api")]
          [("service", .str "api-gateway")] =
        .ok ((ruleActuals
            [("field", .str "service"), ("op", .str "contains"), ("value", .str "api")]
            [("service", .str "api-gateway")]).any fun a =>
          pyStrIn ((ruleExpecteds
            [("field", .str "service"), ("op", .str "contains"), ("value", .str "api")]).headD "") a) :=
  ⟨matchRule_amended.1 _ _ (by rfl),
    (matchRule_amended.2 _ _ (by rfl) (by rfl) (by decide) (by decide)).1⟩

/- ── First-occurrence deduplication (specification device) ── -/

/-- First-occurrence deduplication preserving encounter order; specification
device used to state the dedup behaviour of several source loops. -/
def dedupFirst : List String → List String
  | [] => []
  | x :: xs => x :: (dedupFirst xs).filter (fun y => y != x)

theorem mem_dedupFirst (a : String) (l : List String) : a ∈ dedupFirst l ↔ a ∈ l := by
  induction l with
  | nil => simp [dedupFirst]
  | cons x xs ih =>
    rw [dedupFirst]
    simp only [List.mem_cons, List.mem_filter]
    constructor
    · rintro (h | ⟨h, _⟩)
      · exact .inl h
      · exact .inr (ih.mp h)
    · rintro (h | h)
      · exact .inl h
      · by_cases hax : a = x
        · exact .inl hax
        · exact .inr ⟨ih.mpr h, by simpa [bne_iff_ne] using hax⟩

theorem nodup_dedupFirst (l : List String) : (dedupFirst l).Nodup := by
  induction l with
  | nil => simp [dedupFirst]
  | cons x xs ih =>
    rw [dedupFirst, List.nodup_cons]
    refine ⟨?_, ih.filter _⟩
    intro hmem
    have h2 := (List.mem_filter.mp hmem).2
    simp at h2

theorem dedupFirst_sublist (l : List String) : List.Sublist (dedupFirst l) l := by
  induction l with
  | nil => simp [dedupFirst]
  | cons x xs ih =>
    rw [dedupFirst]
    exact List.Sublist.cons₂ x ((List.filter_sublist _).trans ih)

theorem dedupFirst_append_singleton (p : List String) (v : String) :
    dedupFirst (p ++ [v]) = if v ∈ p then dedupFirst p else dedupFirst p ++ [v] := by
  induction p with
  | nil => simp [dedupFirst]
  | cons x xs ih =>
    rw [List.cons_append, dedupFirst, ih]
    by_cases hv : v ∈ xs
    · rw [if_pos hv, if_pos (List.mem_cons.mpr (.inr hv)), dedupFirst]
    · rw [if_neg hv]
      by_cases hvx : v = x
      · rw [if_pos (List.mem_cons.mpr (.inl hvx)), dedupFirst, List.filter_append]
        simp [hvx]
      · rw [if_neg (by simp [hvx, hv]), dedupFirst, List.filter_append]
        simp [bne_iff_ne, hvx]

/- ── C6: `_sample_messages` (app.py lines 370-380) ── -/

/-- Embedding of the loop body of `_sample_messages` (app.py): skip already
seen messages, append the message, and break once the sample list has reached
`sample_count` — the length check happens after the append. -/
def sampleMessagesAux (seen samples : List String) (count : Nat) :
    List String → List String
  | [] => samples
  | m :: rest =>
    if m ∈ seen then sampleMessagesAux seen samples count rest
    else if (samples ++ [m]).length ≥ count then samples ++ [m]
    else sampleMessagesAux (m :: seen) (samples ++ [m]) count rest

/-- Embedding of `_sample_messages` (app.py lines 370-380). -/
def sampleMessages (messages : List String) (sampleCount : Nat) : List String :=
  sampleMessagesAux [] [] sampleCount messages

theorem sampleMessagesAux_eq (rest : List String) :
    ∀ (seen samples : List String) (count : Nat), samples.length < count →
      sampleMessagesAux seen samples count rest =
        samples ++
          ((dedupFirst rest).filter (fun x => decide (x ∉ seen))).take
            (count - samples.length) := by
  induction rest with
  | nil => intro seen samples count _; simp [sampleMessagesAux, dedupFirst]
  | cons m rest ih =>
    intro seen samples count h
    rw [sampleMessagesAux, dedupFirst]
    by_cases hm : m ∈ seen
    · rw [if_pos hm, ih seen samples count h]
      congr 2
      rw [List.filter_cons, if_neg (by simp [hm]), List.filter_filter]
      apply List.filter_congr
      intro a _
      by_cases ha : a ∈ seen
      · simp [ha]
      · have hne : a ≠ m := fun hh => ha (hh ▸ hm)
        simp [ha, bne_iff_ne, hne]
    · rw [if_neg hm]
      have hPm : (fun x => decide (x ∉ seen)) m = true := by simp [hm]
      by_cases hbrk : (samples ++ [m]).length ≥ count
      · rw [if_pos hbrk]
        have hc : count - samples.length = 1 := by
          simp only [List.length_append, List.length_cons, List.length_nil] at hbrk
          omega
        rw [hc, List.filter_cons, if_pos hPm, List.take_succ_cons, List.take_zero]
      · rw [if_neg hbrk]
        have h2 : (samples ++ [m]).length < count := by omega
        rw [ih (m :: seen) (samples ++ [m]) count h2]
        rw [List.filter_cons, if_pos hPm]
        have hc : count - samples.length = (count - (samples ++ [m]).length) + 1 := by
          simp only [List.length_append, List.length_cons, List.length_nil]
          simp only [List.length_append, List.length_cons, List.length_nil] at h2
          omega
        rw [hc, List.take_succ_cons, List.append_assoc, List.singleton_append,
          List.filter_filter]
        congr 3
        apply List.filter_congr
        intro a _
        by_cases ham : a = m
        · simp [ham]
        · by_cases ha : a ∈ seen <;> simp [ha, ham, bne_iff_ne]

/-- C6 counterexample: the claim says sample count 0 yields the empty list;
the code checks the break condition only after appending, so
`_sample_messages(["x"], 0)` returns `["x"]`, not `[]`. -/
theorem sampleMessages_zero_counterexample :
    sampleMessages ["x"] 0 = ["x"] ∧ sampleMessages ["x"] 0 ≠ [] :=
  ⟨rfl, by decide⟩

/-- C6 (amended): `_sample_messages` returns the first `max N 1` distinct
messages in original encounter order (fewer when there are fewer distinct
messages); because the length check happens after the append, `N = 0` behaves
like `N = 1` and returns the first distinct message of a non-empty list
rather than the empty list. -/
theorem sampleMessages_amended (messages : List String) (n : Nat) :
    sampleMessages messages n = (dedupFirst messages).take (max n 1) := by
  rcases Nat.eq_zero_or_pos n with h0 | hpos
  · subst h0
    cases messages with
    | nil => rfl
    | cons m rest =>
      rw [sampleMessages, sampleMessagesAux, if_neg (by simp),
        if_pos (by simp), dedupFirst]
      simp
  · rw [sampleMessages, sampleMessagesAux_eq messages [] [] n (by simpa using hpos)]
    rw [show (dedupFirst messages).filter (fun x => decide (x ∉ ([] : List String))) =
        dedupFirst messages from List.filter_eq_self.mpr (fun a _ => by simp)]
    simp [Nat.max_eq_left hpos]

/- ── C5: `_most_common` (app.py lines 361-367) ── -/

/-- One step of the counting loop of `_most_common` (app.py):
`counts[value] = counts.get(value, 0) + 1` on an insertion-ordered dict
modelled as an association list (a new key is appended at the end, as in
Python's dict insertion order). -/
def bumpCount : List (String × Nat) → String → List (String × Nat)
  | [], v => [(v, 1)]
  | kv :: rest, v =>
    if kv.1 = v then (kv.1, kv.2 + 1) :: rest else kv :: bumpCount rest v

/-- The counting dict built by the loop of `_most_common`. -/
def countsOf (values : List String) : List (String × Nat) :=
  values.foldl bumpCount []

/-- Python `max(items, key=lambda item: item[1])` over the remaining items:
the running best is replaced only on a strictly greater key, so the first
maximal item wins. -/
def pickMax (best : String × Nat) (l : List (String × Nat)) : String × Nat :=
  l.foldl (fun b q => if q.2 > b.2 then q else b) best

/-- Embedding of `_most_common` (app.py lines 361-367):
`max(counts.items(), key=lambda item: item[1])[0]`, `None` on empty input. -/
def mostCommon (values : List String) : Option String :=
  if values.isEmpty then Option.none
  else
    match countsOf values with
    | [] => Option.none
    | p :: rest => some (pickMax p rest).1

theorem bumpCount_map (l : List String) (c : String → Nat) (v : String)
    (hnd : l.Nodup) :
    bumpCount (l.map fun k => (k, c k)) v =
      if v ∈ l then l.map (fun k => (k, if k = v then c k + 1 else c k))
      else (l.map fun k => (k, c k)) ++ [(v, 1)] := by
  induction l with
  | nil => simp [bumpCount]
  | cons x xs ih =>
    rw [List.map_cons, bumpCount]
    by_cases hxv : x = v
    · subst hxv
      rw [if_pos rfl, if_pos (List.mem_cons_self _ _), List.map_cons, if_pos rfl]
      congr 1
      apply List.map_congr_left
      intro a ha
      have hax : a ≠ x := fun hh => (List.nodup_cons.mp hnd).1 (hh ▸ ha)
      simp [hax]
    · rw [if_neg hxv, ih (List.nodup_cons.mp hnd).2]
      by_cases hv : v ∈ xs
      · rw [if_pos hv, if_pos (List.mem_cons.mpr (.inr hv)), List.map_cons]
        congr 1
        simp [hxv]
      · have hvx : v ∉ x :: xs := by
          intro hmem
          rcases List.mem_cons.mp hmem with hh | hh
          · exact hxv hh.symm
          · exact hv hh
        rw [if_neg hv, if_neg hvx]
        simp [List.map_cons]

theorem bumpCount_step (p : List String) (v : String) :
    bumpCount ((dedupFirst p).map fun k => (k, p.count k)) v =
      (dedupFirst (p ++ [v])).map fun k => (k, (p ++ [v]).count k) := by
  rw [bumpCount_map _ _ _ (nodup_dedupFirst p), dedupFirst_append_singleton]
  by_cases hv : v ∈ p
  · rw [if_pos ((mem_dedupFirst v p).mpr hv), if_pos hv]
    apply List.map_congr_left
    intro a _
    rw [List.count_append, List.count_singleton']
    by_cases hav : a = v
    · simp [hav]
    · simp [hav, Ne.symm hav]
  · rw [if_neg (fun hh => hv ((mem_dedupFirst v p).mp hh)), if_neg hv,
      List.map_append]
    congr 1
    · apply List.map_congr_left
      intro a ha
      have hav : a ≠ v := fun hh => hv (hh ▸ (mem_dedupFirst a p).mp ha)
      rw [List.count_append, List.count_singleton', if_neg (Ne.symm hav)]
      simp
    · have hcv : p.count v = 0 := List.count_eq_zero.mpr hv
      simp [List.count_append, hcv]

theorem countsOf_eq (values : List String) :
    countsOf values = (dedupFirst values).map fun k => (k, values.count k) := by
  have general : ∀ (vs p : List String),
      List.foldl bumpCount ((dedupFirst p).map fun k => (k, p.count k)) vs =
        (dedupFirst (p ++ vs)).map fun k => (k, (p ++ vs).count k) := by
    intro vs
    induction vs with
    | nil => intro p; simp
    | cons v rest ih =>
      intro p
      rw [List.foldl_cons, bumpCount_step, ih (p ++ [v])]
      simp [List.append_assoc]
  have h := general values []
  simpa [countsOf, dedupFirst] using h

theorem pickMax_spec : ∀ (rest : List (String × Nat)) (p : String × Nat),
    ∃ la lb, p :: rest = la ++ pickMax p rest :: lb ∧
      (∀ q ∈ la, q.2 < (pickMax p rest).2) ∧
      ∀ q ∈ p :: rest, q.2 ≤ (pickMax p rest).2 := by
  intro rest
  induction rest with
  | nil =>
    intro p
    refine ⟨[], [], rfl, by simp, ?_⟩
    intro q hq
    rcases List.mem_cons.mp hq with hh | hh
    · subst hh; exact le_refl _
    · simp at hh
  | cons q rest ih =>
    intro p
    have hstep : pickMax p (q :: rest) = pickMax (if q.2 > p.2 then q else p) rest := rfl
    by_cases hq : q.2 > p.2
    · obtain ⟨la, lb, heq, hlt, hle⟩ := ih q
      have hm : pickMax p (q :: rest) = pickMax q rest := by rw [hstep, if_pos hq]
      have hqle : q.2 ≤ (pickMax q rest).2 := hle q (List.mem_cons_self _ _)
      refine ⟨p :: la, lb, ?_, ?_, ?_⟩
      · rw [hm, List.cons_append]
        exact congrArg (p :: ·) heq
      · intro z hz
        rw [hm]
        rcases List.mem_cons.mp hz with hh | hh
        · subst hh; exact lt_of_lt_of_le hq hqle
        · exact hlt z hh
      · intro z hz
        rw [hm]
        rcases List.mem_cons.mp hz with hh | hh
        · subst hh; exact le_of_lt (lt_of_lt_of_le hq hqle)
        · exact hle z hh
    · obtain ⟨la, lb, heq, hlt, hle⟩ := ih p
      have hm : pickMax p (q :: rest) = pickMax p rest := by rw [hstep, if_neg hq]
      have hleAll : ∀ z ∈ p :: q :: rest, z.2 ≤ (pickMax p (q :: rest)).2 := by
        intro z hz
        rw [hm]
        rcases List.mem_cons.mp hz with hh | hh
        · rw [hh]; exact hle p (List.mem_cons_self _ _)
        · rcases List.mem_cons.mp hh with hh2 | hh2
          · rw [hh2]
            exact le_trans (by omega) (hle p (List.mem_cons_self _ _))
          · exact hle z (List.mem_cons.mpr (.inr hh2))
      cases la with
      | nil =>
        rw [List.nil_append] at heq
        injection heq with h1 h2
        refine ⟨[], q :: lb, ?_, by simp, hleAll⟩
        rw [hm, List.nil_append, ← h1, ← h2]
      | cons y la₂ =>
        rw [List.cons_append] at heq
        injection heq with h1 h2
        have hplt : p.2 < (pickMax p rest).2 := by
          have := hlt y (List.mem_cons_self _ _)
          rw [← h1] at this
          exact this
        refine ⟨p :: q :: la₂, lb, ?_, ?_, hleAll⟩
        · rw [hm, List.cons_append, List.cons_append]
          conv_lhs => rw [h2]
        · intro z hz
          rw [hm]
          rcases List.mem_cons.mp hz with hh | hh
          · rw [hh]; exact hplt
          · rcases List.mem_cons.mp hh with hh2 | hh2
            · rw [hh2]; exact lt_of_le_of_lt (by omega) hplt
            · exact hlt z (List.mem_cons.mpr (.inr hh2))

theorem dedupFirst_pairwise_indexOf (l : List String) :
    (dedupFirst l).Pairwise (fun a b => l.indexOf a < l.indexOf b) := by
  induction l with
  | nil => simp [dedupFirst]
  | cons x xs ih =>
    rw [dedupFirst, List.pairwise_cons]
    constructor
    · intro b hb
      have hbne : b ≠ x := by
        simpa [bne_iff_ne] using (List.mem_filter.mp hb).2
      rw [List.indexOf_cons_self, List.indexOf_cons_ne _ (Ne.symm hbne)]
      exact Nat.succ_pos _
    · refine List.Pairwise.imp_of_mem ?_ (ih.filter (fun y => y != x))
      intro a b ha hb hab
      have hane : a ≠ x := by
        simpa [bne_iff_ne] using (List.mem_filter.mp ha).2
      have hbne : b ≠ x := by
        simpa [bne_iff_ne] using (List.mem_filter.mp hb).2
      rw [List.indexOf_cons_ne _ (Ne.symm hane), List.indexOf_cons_ne _ (Ne.symm hbne)]
      exact Nat.succ_lt_succ hab

/-- C5: `_most_common` returns `None` on the empty list, returns `"A"` on the
equal-count list `["A", "B"]`, and on any non-empty list returns a most
frequent message with ties among maximal-count messages broken in favour of
the first-encountered one (the counting dict preserves insertion order and
Python's `max` keeps the first maximal item). -/
theorem mostCommon_correct :
    mostCommon [] = Option.none ∧
    mostCommon ["A", "B"] = some "A" ∧
    ∀ (values : List String), values ≠ [] →
      ∃ m, mostCommon values = some m ∧ m ∈ values ∧
        (∀ v ∈ values, values.count v ≤ values.count m) ∧
        (∀ v ∈ values, values.count v = values.count m →
          values.indexOf m ≤ values.indexOf v) := by
  refine ⟨rfl, rfl, ?_⟩
  intro values hne
  obtain ⟨x, vs, rfl⟩ : ∃ x vs, values = x :: vs := by
    cases values with
    | nil => exact absurd rfl hne
    | cons a l => exact ⟨a, l, rfl⟩
  have hceq := countsOf_eq (x :: vs)
  rw [dedupFirst, List.map_cons] at hceq
  set tail := ((dedupFirst vs).filter (fun y => y != x)).map
      (fun k => (k, (x :: vs).count k)) with htail
  have hmc : mostCommon (x :: vs) = some (pickMax (x, (x :: vs).count x) tail).1 := by
    rw [mostCommon, if_neg (by simp), hceq]
  obtain ⟨la, lb, heq, hlt, hle⟩ := pickMax_spec tail (x, (x :: vs).count x)
  set mp := pickMax (x, (x :: vs).count x) tail with hmp
  have hmem_counts : mp ∈ countsOf (x :: vs) := by
    rw [hceq, heq]
    exact List.mem_append.mpr (.inr (List.mem_cons_self _ _))
  have hkey : ∀ q ∈ countsOf (x :: vs), q.1 ∈ (x :: vs) ∧ q.2 = (x :: vs).count q.1 := by
    intro q hq
    rw [countsOf_eq] at hq
    obtain ⟨k, hk, rfl⟩ := List.mem_map.mp hq
    exact ⟨(mem_dedupFirst k _).mp hk, rfl⟩
  have hm1 : mp.1 ∈ x :: vs := (hkey mp hmem_counts).1
  have hm2 : mp.2 = (x :: vs).count mp.1 := (hkey mp hmem_counts).2
  have hvcounts : ∀ v ∈ x :: vs, (v, (x :: vs).count v) ∈ countsOf (x :: vs) := by
    intro v hv
    rw [countsOf_eq]
    exact List.mem_map.mpr ⟨v, (mem_dedupFirst v _).mpr hv, rfl⟩
  refine ⟨mp.1, hmc, hm1, ?_, ?_⟩
  · intro v hv
    have hvmem := hvcounts v hv
    rw [hceq] at hvmem
    have h3 := hle _ hvmem
    rw [hm2] at h3
    exact h3
  · intro v hv hcnt
    have hvmem := hvcounts v hv
    rw [hceq, heq] at hvmem
    rcases List.mem_append.mp hvmem with hla | hmb
    · have h4 := hlt _ hla
      rw [hm2] at h4
      simp only at h4
      omega
    · rcases List.mem_cons.mp hmb with hveq | hlb
      · have hvm : v = mp.1 := congrArg Prod.fst hveq
        rw [hvm]
      · have hkeys : dedupFirst (x :: vs) = la.map Prod.fst ++ mp.1 :: lb.map Prod.fst := by
          have h4 : ((x, (x :: vs).count x) :: tail).map Prod.fst = dedupFirst (x :: vs) := by
            have h5 : (Prod.fst ∘ fun k : String => (k, (x :: vs).count k)) = id := by
              funext k; rfl
            rw [htail, dedupFirst, List.map_cons, List.map_map, h5, List.map_id]
          rw [← h4, heq, List.map_append, List.map_cons]
        have hpw := dedupFirst_pairwise_indexOf (x :: vs)
        rw [hkeys] at hpw
        have hpair := (List.pairwise_append.mp hpw).2.1
        rw [List.pairwise_cons] at hpair
        have hvin : v ∈ lb.map Prod.fst :=
          List.mem_map.mpr ⟨(v, (x :: vs).count v), hlb, rfl⟩
        exact le_of_lt (hpair.1 v hvin)

/-- C5 witness instantiating the universally quantified part of the theorem
at the concrete list `["B", "A", "B"]`. -/
theorem mostCommon_correct_witness :
    ∃ m, mostCommon ["B", "A", "B"] = some m ∧ m ∈ ["B", "A", "B"] ∧
      (∀ v ∈ ["B", "A", "B"],
        List.count v ["B", "A", "B"] ≤ List.count m ["B", "A", "B"]) ∧
      (∀ v ∈ ["B", "A", "B"],
        List.count v ["B", "A", "B"] = List.count m ["B", "A", "B"] →
          List.indexOf m ["B", "A", "B"] ≤ List.indexOf v ["B", "A", "B"]) :=
  mostCommon_correct.2.2 ["B", "A", "B"] (by decide)

/- ── Sorted iteration of a service set ── -/

/-- Lexicographic order on character lists by code point, the order Python
uses to compare strings. -/
def lexLe : List Char → List Char → Bool
  | a :: as, b :: bs =>
    if a.val < b.val then true
    else if b.val < a.val then false
    else lexLe as bs
  | [], _ => true
  | _, _ => false

/-- Python `a <= b` on strings (lexicographic by code point). -/
def strLeB (a b : String) : Bool :=
  lexLe a.data b.data

/-- Insertion step of the string sort. -/
def insertSorted (s : String) : List String → List String
  | [] => [s]
  | x :: xs => if strLeB s x then s :: x :: xs else x :: insertSorted s xs

/-- Insertion sort on strings. -/
def sortStrings : List String → List String
  | [] => []
  | x :: xs => insertSorted x (sortStrings xs)

/-- Python `sorted(services)` for a set of strings: the set holds each
element once, so the model deduplicates and sorts; the input list order is
irrelevant after sorting. -/
def sortedSet (l : List String) : List String :=
  sortStrings (dedupFirst l)

/- ── C4: `_resolve_runbook` (app.py lines 315-331) ── -/

/-- The runbook a service entry declares: `services_cfg.get(service, {})`
followed by the `isinstance(cfg, dict) and isinstance(cfg.get("runbook"),
list)` guard, yielding `[str(line) for line in cfg.get("runbook", [])]`
(app.py lines 318-321). -/
def declaredServiceRunbook (servicesCfg : List (String × PyVal))
    (service : String) : Option (List String) :=
  match dictGetD servicesCfg service (.dict []) with
  | .dict kvs =>
    match dictGet kvs "runbook" with
    | .list lines => some (lines.map PyVal.toStr)
    | _ => Option.none
  | _ => Option.none

/-- Tier 1 loop of `_resolve_runbook`: the first sorted service declaring a
runbook returns it (app.py lines 317-321). -/
def serviceRunbookLoop (servicesCfg : List (String × PyVal)) :
    List String → Option (List String)
  | [] => Option.none
  | s :: rest =>
    match declaredServiceRunbook servicesCfg s with
    | some rb => some rb
    | Option.none => serviceRunbookLoop servicesCfg rest

/-- The runbook a profile entry declares: `profiles_cfg.get(profile_name, {})`
with the dict-and-list guard (app.py lines 324-327). -/
def declaredProfileRunbook (profilesCfg : List (String × PyVal))
    (p : String) : Option (List String) :=
  match dictGetD profilesCfg p (.dict []) with
  | .dict kvs =>
    match dictGet kvs "runbook" with
    | .list lines => some (lines.map PyVal.toStr)
    | _ => Option.none
  | _ => Option.none

/-- Tier 2 loop of `_resolve_runbook` (app.py lines 323-327). -/
def profileRunbookLoop (profilesCfg : List (String × PyVal)) :
    List String → Option (List String)
  | [] => Option.none
  | p :: rest =>
    match declaredProfileRunbook profilesCfg p with
    | some rb => some rb
    | Option.none => profileRunbookLoop profilesCfg rest

/-- Tier 3 of `_resolve_runbook`: `defaults.get("runbook", [])` with the
trailing list guard (app.py lines 329-331). -/
def defaultRunbook (defaults : List (String × PyVal)) : List String :=
  match dictGetD defaults "runbook" (.list []) with
  | .list lines => lines.map PyVal.toStr
  | _ => []

/-- Embedding of `_resolve_runbook` (app.py lines 315-331): tier 1 over the
sorted service set, then tier 2 over the resolved profile names, then the
global default. -/
def resolveRunbook (servicesCfg profilesCfg defaults : List (String × PyVal))
    (services profileNames : List String) : List String :=
  match serviceRunbookLoop servicesCfg (sortedSet services) with
  | some rb => rb
  | Option.none =>
    match profileRunbookLoop profilesCfg profileNames with
    | some rb => rb
    | Option.none => defaultRunbook defaults

theorem serviceRunbookLoop_eq (cfg : List (String × PyVal)) (l : List String) :
    serviceRunbookLoop cfg l = l.findSome? (declaredServiceRunbook cfg) := by
  induction l with
  | nil => rfl
  | cons s rest ih =>
    rw [serviceRunbookLoop, List.findSome?_cons]
    cases declaredServiceRunbook cfg s <;> simp [ih]

theorem profileRunbookLoop_eq (cfg : List (String × PyVal)) (l : List String) :
    profileRunbookLoop cfg l = l.findSome? (declaredProfileRunbook cfg) := by
  induction l with
  | nil => rfl
  | cons p rest ih =>
    rw [profileRunbookLoop, List.findSome?_cons]
    cases declaredProfileRunbook cfg p <;> simp [ih]

/-- C4: `_resolve_runbook` implements the three-tier cascade — the first
service in sorted order that declares a runbook wins; otherwise the first
profile (in profile-list order) that declares one; otherwise the global
default runbook; otherwise the empty list — and the later tiers are consulted
only when the service tier yields nothing: the result is independent of the
profile and default configuration whenever some service declares a runbook. -/
theorem resolveRunbook_cascade :
    (∀ (servicesCfg profilesCfg defaults : List (String × PyVal))
        (services profileNames : List String),
      resolveRunbook servicesCfg profilesCfg defaults services profileNames =
        (((sortedSet services).findSome? (declaredServiceRunbook servicesCfg)).orElse
          (fun _ => profileNames.findSome? (declaredProfileRunbook profilesCfg))).getD
            (defaultRunbook defaults)) ∧
    (∀ (servicesCfg profilesCfg profilesCfg₂ defaults defaults₂ :
          List (String × PyVal))
        (services profileNames : List String),
      (sortedSet services).findSome? (declaredServiceRunbook servicesCfg) ≠
          Option.none →
        resolveRunbook servicesCfg profilesCfg defaults services profileNames =
          resolveRunbook servicesCfg profilesCfg₂ defaults₂ services profileNames) := by
  constructor
  · intro sc pc df sv pn
    rw [resolveRunbook, serviceRunbookLoop_eq, profileRunbookLoop_eq]
    cases (sortedSet sv).findSome? (declaredServiceRunbook sc) with
    | some rb => rfl
    | none =>
      cases pn.findSome? (declaredProfileRunbook pc) with
      | some rb => rfl
      | none => rfl
  · intro sc pc pc₂ df df₂ sv pn hne
    rw [resolveRunbook, resolveRunbook, serviceRunbookLoop_eq]
    cases h : (sortedSet sv).findSome? (declaredServiceRunbook sc) with
    | some rb => rfl
    | none => exact absurd h hne

/-- C4 witness: with a service that declares a runbook, the result is the
same whatever the profile and default configuration are. -/
theorem resolveRunbook_cascade_witness :
    resolveRunbook [("svc", .dict [("runbook", .list [.str "step"])])] [] []
        ["svc"] ["p"] =
      resolveRunbook [("svc", .dict [("runbook", .list [.str "step"])])]
        [("p", .dict [("runbook", .list [.str "other"])])]
        [("runbook", .list [.str "default"])] ["svc"] ["p"] :=
  resolveRunbook_cascade.2 _ []
    [("p", .dict [("runbook", .list [.str "other"])])] []
    [("runbook", .list [.str "default"])] ["svc"] ["p"] (by decide)

/- ── C8: `_get_service_profiles` (app.py lines 219-237) ── -/

/-- The profile names a service config declares: `cfg.get("profiles", [])`
under the `isinstance(cfg, dict)` and `isinstance(profiles, list)` guards,
then `[str(p) for p in profiles if p]` (app.py lines 223-228). -/
def declaredProfiles (servicesCfg : List (String × PyVal))
    (service : String) : List String :=
  match dictGetD servicesCfg service (.dict []) with
  | .dict kvs =>
    match dictGetD kvs "profiles" (.list []) with
    | .list ps => (ps.filter PyVal.truthy).map PyVal.toStr
    | _ => []
  | _ => []

/-- The collection loop of `_get_service_profiles` (app.py lines 222-228):
concatenate the declared profile names of each service in iteration order. -/
def collectProfileNames (servicesCfg : List (String × PyVal)) :
    List String → List String
  | [] => []
  | s :: rest =>
    declaredProfiles servicesCfg s ++ collectProfileNames servicesCfg rest

/-- The dedup loop of `_get_service_profiles` (app.py lines 230-237): skip
names already in the seen set, keep first occurrences in order. -/
def uniqueLoop (seen : List String) : List String → List String
  | [] => []
  | n :: rest =>
    if n ∈ seen then uniqueLoop seen rest else n :: uniqueLoop (n :: seen) rest

/-- Embedding of `_get_service_profiles` (app.py lines 219-237). -/
def getServiceProfiles (servicesCfg : List (String × PyVal))
    (services : List String) : List String :=
  uniqueLoop [] (collectProfileNames servicesCfg (sortedSet services))

theorem uniqueLoop_eq (l : List String) : ∀ seen,
    uniqueLoop seen l = (dedupFirst l).filter (fun x => decide (x ∉ seen)) := by
  induction l with
  | nil => intro seen; rfl
  | cons n rest ih =>
    intro seen
    rw [uniqueLoop, dedupFirst]
    by_cases hn : n ∈ seen
    · rw [if_pos hn, ih seen, List.filter_cons, if_neg (by simp [hn]),
        List.filter_filter]
      apply List.filter_congr
      intro a _
      by_cases ham : a = n
      · simp [ham, hn]
      · by_cases ha : a ∈ seen <;> simp [ha, ham, bne_iff_ne]
    · rw [if_neg hn, ih (n :: seen), List.filter_cons, if_pos (by simp [hn])]
      congr 1
      rw [List.filter_filter]
      apply List.filter_congr
      intro a _
      by_cases ham : a = n
      · simp [ham]
      · by_cases ha : a ∈ seen <;> simp [ha, ham, bne_iff_ne]

theorem collectProfileNames_eq (cfg : List (String × PyVal)) (l : List String) :
    collectProfileNames cfg l = l.flatMap (declaredProfiles cfg) := by
  induction l with
  | nil => rfl
  | cons s rest ih => rw [collectProfileNames, List.flatMap_cons, ih]

/-- C8: `_get_service_profiles` concatenates the declared profile-name lists
of the services in sorted order and deduplicates by first occurrence while
preserving the cross-service order; the result never contains duplicates; and
services `A, B` with profile lists `["sev-a"]` and `["sev-b", "sev-a"]`
resolve to `["sev-a", "sev-b"]`. -/
theorem getServiceProfiles_correct :
    (∀ (servicesCfg : List (String × PyVal)) (services : List String),
      getServiceProfiles servicesCfg services =
        dedupFirst ((sortedSet services).flatMap (declaredProfiles servicesCfg))) ∧
    (∀ (servicesCfg : List (String × PyVal)) (services : List String),
      (getServiceProfiles servicesCfg services).Nodup) ∧
    getServiceProfiles
        [("A", .dict [("profiles", .list [.str "sev-a"])]),
         ("B", .dict [("profiles", .list [.str "sev-b", .str "sev-a"])])]
        ["A", "B"] = ["sev-a", "sev-b"] := by
  have h1 : ∀ (servicesCfg : List (String × PyVal)) (services : List String),
      getServiceProfiles servicesCfg services =
        dedupFirst ((sortedSet services).flatMap (declaredProfiles servicesCfg)) := by
    intro cfg services
    rw [getServiceProfiles, collectProfileNames_eq, uniqueLoop_eq]
    rw [List.filter_eq_self.mpr (fun a _ => by simp)]
  refine ⟨h1, ?_, ?_⟩
  · intro cfg services
    rw [h1]
    exact nodup_dedupFirst _
  · rw [h1]
    decide

/- ── C7: `_match_route` / `resolve_target` (app.py lines 626-676) ── -/

/-- Model of Python `str.lower()` for ASCII characters (route patterns and
alert names in this engine are ASCII; non-ASCII case folding is not
modelled). -/
def pyLowerChar (c : Char) : Char :=
  if c.toNat ≥ 65 && c.toNat ≤ 90 then Char.ofNat (c.toNat + 32) else c

/-- Python `s.lower()` on a string. -/
def pyToLower (s : String) : String :=
  String.mk (s.data.map pyLowerChar)

/-- One route of a schema-validated `routes.yml`: the `match` block items in
declaration order, and the optional `group` / `topic` names (the startup
validation guarantees routes are mappings and group/topic names strings, so
the embedding uses that shape directly). -/
structure Route where
  matchRules : List (String × PyVal)
  group : Option String
  topic : Option String

/-- A schema-validated `routes.yml` as `resolve_target` reads it: `groups`,
`topics`, `routes`, `default_group`, `default_topic` (absent modelled as
`Option.none`, read back with Python's `.get(key, "")` default). -/
structure RoutesFile where
  groups : List (String × PyVal)
  topics : List (String × PyVal)
  routes : List Route
  defaultGroup : Option String
  defaultTopic : Option String

/-- Embedding of `_match_route` (app.py lines 626-641): every key of the
route's match block must pass its case-insensitive substring test
(`service`/`host` against any value of the corresponding set, `monitor`
against the monitor string; other keys impose no test). -/
def matchRoute (rules : List (String × PyVal)) (services hosts : List String)
    (monitor : String) : Bool :=
  rules.all fun kp =>
    let p := pyToLower kp.2.toStr
    if kp.1 = "service" then services.any fun s => pyStrIn p (pyToLower s)
    else if kp.1 = "host" then hosts.any fun h => pyStrIn p (pyToLower h)
    else if kp.1 = "monitor" then pyStrIn p (pyToLower monitor)
    else true

/-- Destination of a matched route (app.py lines 670-672):
`gname = route.get("group", default_group)`, `str(groups.get(gname, ""))`,
`topics.get(tname)`. -/
def routeTarget (rf : RoutesFile) (r : Route) : String × PyVal :=
  ((dictGetD rf.groups (r.group.getD (rf.defaultGroup.getD "")) (.str "")).toStr,
    dictGet rf.topics (r.topic.getD (rf.defaultTopic.getD "")))

/-- Destination when no route matches (app.py lines 674-676). -/
def defaultTarget (rf : RoutesFile) : String × PyVal :=
  ((dictGetD rf.groups (rf.defaultGroup.getD "") (.str "")).toStr,
    dictGet rf.topics (rf.defaultTopic.getD ""))

/-- The route loop of `resolve_target` (app.py lines 666-672): first matching
route returns its destination, otherwise fall through to the defaults. -/
def routesLoop (rf : RoutesFile) (services hosts : List String)
    (monitor : String) : List Route → String × PyVal
  | [] => defaultTarget rf
  | r :: rest =>
    if matchRoute r.matchRules services hosts monitor then routeTarget rf r
    else routesLoop rf services hosts monitor rest

/-- The environment topic id as `resolve_target` returns it. -/
def pyValOfTopic : Option Int → PyVal
  | some n => .int n
  | Option.none => .none

/-- Embedding of `resolve_target` (app.py lines 644-676): without a routing
configuration (`if not _routes`) the static environment destination is
returned; otherwise the routes are scanned in declared order. -/
def resolveTarget (routesFile : Option RoutesFile) (envChatId : String)
    (envTopicId : Option Int) (services hosts : List String)
    (monitor : String) : String × PyVal :=
  match routesFile with
  | Option.none => (envChatId, pyValOfTopic envTopicId)
  | some rf => routesLoop rf services hosts monitor rf.routes

/-- C7: route resolution is first-match-wins over the declared route order —
the destination is that of the first route whose every match key passes its
case-insensitive substring test (so a later, more specific route never fires
when an earlier route matches), the global default group and topic are
returned when no route matches, and with no routing configuration present the
single static environment destination is returned; the spec's example route
`{match: {service: "api"}}` matches service set `{"api-gateway"}` and not
`{"worker"}`. -/
theorem resolveTarget_first_match :
    (∀ (envChatId : String) (envTopicId : Option Int)
        (services hosts : List String) (monitor : String),
      resolveTarget Option.none envChatId envTopicId services hosts monitor =
        (envChatId, pyValOfTopic envTopicId)) ∧
    (∀ (rf : RoutesFile) (envChatId : String) (envTopicId : Option Int)
        (services hosts : List String) (monitor : String),
      resolveTarget (some rf) envChatId envTopicId services hosts monitor =
        match rf.routes.find?
            (fun r => matchRoute r.matchRules services hosts monitor) with
        | some r => routeTarget rf r
        | Option.none => defaultTarget rf) ∧
    matchRoute [("service", .str "api")] ["api-gateway"] [] "" = true ∧
    matchRoute [("service", .str "api")] ["worker"] [] "" = false := by
  refine ⟨fun _ _ _ _ _ => rfl, ?_, by decide, by decide⟩
  intro rf envC envT services hosts monitor
  show routesLoop rf services hosts monitor rf.routes = _
  induction rf.routes with
  | nil => rfl
  | cons r rest ih =>
    rw [routesLoop, List.find?_cons]
    by_cases hm : matchRoute r.matchRules services hosts monitor = true
    · rw [if_pos hm]
      simp only [hm]
    · rw [if_neg hm]
      have hm2 : matchRoute r.matchRules services hosts monitor = false := by
        simpa using hm
      simp only [hm2]
      exact ih

/- ── C10: matched-count extraction (`_extract_axiom_alert_fields`,
`_coerce_matches`, app.py lines 729-782 and 845-949) ── -/

/-- Whitespace skipping for the JSON model. -/
def jsonSkipWs : List Char → List Char
  | [] => []
  | c :: rest =>
    if c = ' ' ∨ c = '\t' ∨ c = '\n' ∨ c = '\r' then jsonSkipWs rest else c :: rest

/-- Backslash escapes supported by the JSON string model (`\b`, `\f` and
`\uXXXX` are outside the modelled fragment). -/
def jsonEscape (e : Char) : Option Char :=
  if e = '"' ∨ e = '\\' ∨ e = '/' then some e
  else if e = 'n' then some '\n'
  else if e = 't' then some '\t'
  else if e = 'r' then some '\r'
  else Option.none

/-- Scan a JSON string body up to the closing quote, decoding escapes. -/
def jsonParseStr : List Char → Option (List Char × List Char)
  | [] => Option.none
  | '\\' :: e :: rest =>
    (match jsonEscape e with
     | some c => (jsonParseStr rest).map fun p => (c :: p.1, p.2)
     | Option.none => Option.none)
  | '"' :: rest => some ([], rest)
  | c :: rest => (jsonParseStr rest).map fun p => (c :: p.1, p.2)

/-- Decimal digits to a natural number. -/
def digitsToNat (ds : List Char) : Nat :=
  ds.foldl (fun acc c => acc * 10 + (c.toNat - 48)) 0

/-- Parse a JSON integer literal; a fractional or exponent part is outside
the value model (no floating-point values) and fails. -/
def jsonParseNatPart (cs : List Char) : Option (Nat × List Char) :=
  match List.span Char.isDigit cs with
  | ([], _) => Option.none
  | (ds, rest) =>
    match rest with
    | '.' :: _ => Option.none
    | 'e' :: _ => Option.none
    | 'E' :: _ => Option.none
    | _ => some (digitsToNat ds, rest)

/-- Parse a JSON number (integer fragment). -/
def jsonParseNum : List Char → Option (PyVal × List Char)
  | '-' :: rest => (jsonParseNatPart rest).map fun p => (.int (-(p.1 : Int)), p.2)
  | cs => (jsonParseNatPart cs).map fun p => (.int (p.1 : Int), p.2)

/-- When `tok` begins the input, the remainder after it. -/
def jsonKeyword (tok : String) (cs : List Char) : Option (List Char) :=
  if tok.data.isPrefixOf cs then some (cs.drop tok.data.length) else Option.none

/-- The three JSON literal keywords. -/
def jsonParseLit (cs : List Char) : Option (PyVal × List Char) :=
  match jsonKeyword "null" cs with
  | some r => some (.none, r)
  | Option.none =>
    match jsonKeyword "true" cs with
    | some r => some (.bool true, r)
    | Option.none =>
      match jsonKeyword "false" cs with
      | some r => some (.bool false, r)
      | Option.none => Option.none

mutual

/-- Fuel-bounded JSON value parser (model of Python `json.loads`, restricted
to the value model: objects, arrays, strings with common escapes, integers,
booleans, null).  Dispatch is on the first non-blank character. -/
def jsonParseVal : Nat → List Char → Option (PyVal × List Char)
  | 0, _ => Option.none
  | Nat.succ fuel, cs0 =>
    match jsonSkipWs cs0 with
    | [] => Option.none
    | c :: rest =>
      if c = '"' then (jsonParseStr rest).map fun p => (.str (String.mk p.1), p.2)
      else if c = '[' then
        (match jsonSkipWs rest with
         | ']' :: rest2 => some (.list [], rest2)
         | rest2 => (jsonParseItems fuel rest2).map fun p => (.list p.1, p.2))
      else if c = '\x7b' then
        (match jsonSkipWs rest with
         | '\x7d' :: rest2 => some (.dict [], rest2)
         | rest2 => (jsonParseMembers fuel rest2).map fun p => (.dict p.1, p.2))
      else if c = 'n' ∨ c = 't' ∨ c = 'f' then jsonParseLit (c :: rest)
      else jsonParseNum (c :: rest)

/-- Fuel-bounded parser for the comma-separated items of a JSON array. -/
def jsonParseItems : Nat → List Char → Option (List PyVal × List Char)
  | 0, _ => Option.none
  | Nat.succ fuel, cs => do
    let (v, rest) ← jsonParseVal fuel cs
    match jsonSkipWs rest with
    | ',' :: rest2 => (jsonParseItems fuel rest2).map fun p => (v :: p.1, p.2)
    | ']' :: rest2 => some ([v], rest2)
    | _ => Option.none

/-- Fuel-bounded parser for the members of a JSON object. -/
def jsonParseMembers : Nat → List Char → Option (List (String × PyVal) × List Char)
  | 0, _ => Option.none
  | Nat.succ fuel, cs => do
    let rest0 ← (match jsonSkipWs cs with
      | '"' :: r => some r
      | _ => Option.none)
    let (key, rest1) ← jsonParseStr rest0
    let rest2 ← (match jsonSkipWs rest1 with
      | ':' :: r => some r
      | _ => Option.none)
    let (v, rest3) ← jsonParseVal fuel rest2
    match jsonSkipWs rest3 with
    | ',' :: rest4 =>
      (jsonParseMembers fuel rest4).map fun p => ((String.mk key, v) :: p.1, p.2)
    | '\x7d' :: rest4 => some ([(String.mk key, v)], rest4)
    | _ => Option.none

end

/-- Model of Python `json.loads`: parse one value and require only trailing
whitespace; `Option.none` models `json.JSONDecodeError`. -/
def jsonLoads (s : String) : Option PyVal :=
  match jsonParseVal (s.data.length + 2) s.data with
  | some (v, rest) => if (jsonSkipWs rest).isEmpty then some v else Option.none
  | Option.none => Option.none

/-- Embedding of `_coerce_event_body` (app.py lines 747-758): a dict body is
used as-is; a string body is JSON-decoded and used when the decoded value is
a dict; anything else yields nothing. -/
def coerceEventBody (eventKvs : List (String × PyVal)) :
    Option (List (String × PyVal)) :=
  match dictGet eventKvs "body" with
  | .dict kvs => some kvs
  | .str s =>
    (match jsonLoads s with
     | some (.dict kvs) => some kvs
     | _ => Option.none)
  | _ => Option.none

/-- Embedding of `_get_nested` (app.py lines 729-737). -/
def getNested : PyVal → List String → PyVal
  | v, [] => v
  | .dict kvs, k :: rest =>
    (match dictGet kvs k with
     | .none => .none
     | v => getNested v rest)
  | _, _ :: _ => .none

/-- Embedding of `_first_value` (app.py lines 740-744): the first value that
is neither `None` nor `""`. -/
def firstValue : List PyVal → PyVal
  | [] => .none
  | v :: rest => if v.isNone || v.eqStr "" then firstValue rest else v

/-- The event dict of a payload: `payload.get("event")` when it is a mapping,
else `{}` (app.py lines 763-764 and 848-849). -/
def eventDict (payload : List (String × PyVal)) : List (String × PyVal) :=
  match dictGet payload "event" with
  | .dict kvs => kvs
  | _ => []

/-- The decoded body dict: `_coerce_event_body(event_dict) or {}` (app.py
lines 767 and 850). -/
def bodyDict (payload : List (String × PyVal)) : List (String × PyVal) :=
  (coerceEventBody (eventDict payload)).getD []

/-- The candidate roots of `_coerce_matches` (app.py lines 762-769): the
payload itself, then the event dict when truthy, then the body dict when
truthy. -/
def matchRoots (payload : List (String × PyVal)) :
    List (List (String × PyVal)) :=
  [payload] ++
    (if (eventDict payload).isEmpty then [] else [eventDict payload]) ++
    (if (bodyDict payload).isEmpty then [] else [bodyDict payload])

/-- The five candidate match-list locations per root (app.py lines 772-778). -/
def rootMatchCandidates (root : List (String × PyVal)) : List PyVal :=
  [getNested (.dict root) ["queryResult", "matches"],
   getNested (.dict root) ["result", "matches"],
   getNested (.dict root) ["matches", "matches"],
   getNested (.dict root) ["alert", "matches"],
   dictGet root "matches"]

/-- The first list-valued candidate of a root (app.py lines 779-781). -/
def firstListCandidate (root : List (String × PyVal)) : Option (List PyVal) :=
  (rootMatchCandidates root).findSome? fun c =>
    match c with
    | .list items => some items
    | _ => Option.none

/-- Embedding of `_coerce_matches` (app.py lines 761-782): the first root
whose candidates hold a list wins, and its dict items are kept. -/
def coerceMatches (payload : List (String × PyVal)) : List PyVal :=
  match (matchRoots payload).findSome? firstListCandidate with
  | some items => items.filter PyVal.isDict
  | Option.none => []

/-- The eighteen matched-count alias positions of
`_extract_axiom_alert_fields`, in source order (app.py lines 880-899). -/
def matchedCountCandidates (payload : List (String × PyVal)) : List PyVal :=
  let ev := eventDict payload
  let bd := bodyDict payload
  [dictGet payload "matchedCount",
   getNested (.dict payload) ["alert", "matchedCount"],
   getNested (.dict payload) ["alert", "matchCount"],
   getNested (.dict payload) ["matches", "count"],
   getNested (.dict payload) ["result", "count"],
   getNested (.dict ev) ["value"],
   getNested (.dict ev) ["valueString"],
   getNested (.dict ev) ["extraCount"],
   getNested (.dict ev) ["matchedCount"],
   getNested (.dict ev) ["alert", "matchedCount"],
   getNested (.dict ev) ["alert", "matchCount"],
   getNested (.dict ev) ["matches", "count"],
   getNested (.dict ev) ["result", "count"],
   getNested (.dict bd) ["matchedCount"],
   getNested (.dict bd) ["alert", "matchedCount"],
   getNested (.dict bd) ["alert", "matchCount"],
   getNested (.dict bd) ["matches", "count"],
   getNested (.dict bd) ["result", "count"]]

/-- Embedding of the matched-count portion of `_extract_axiom_alert_fields`
(app.py lines 880-901 and 938-940): first non-empty alias, a dict value
replaced by its `count` entry, then the match-record length fallback when the
count is still `None` and match records were found. -/
def extractMatchedCount (payload : List (String × PyVal)) : PyVal :=
  let mc0 := firstValue (matchedCountCandidates payload)
  let mc :=
    match mc0 with
    | .dict kvs => dictGet kvs "count"
    | v => v
  let mrecs := coerceMatches payload
  if mc.isNone && !mrecs.isEmpty then .int mrecs.length else mc

theorem firstValue_none (l : List PyVal)
    (h : l.all (fun v => v.isNone || v.eqStr "") = true) :
    firstValue l = PyVal.none := by
  induction l with
  | nil => rfl
  | cons v rest ih =>
    rw [List.all_cons, Bool.and_eq_true] at h
    rw [firstValue, if_pos h.1, ih h.2]

/-- C10: when every matched-count alias position of the payload holds `None`
or `""` (no count alias is present at any candidate root) but match records
are found, the matched count is the number of extracted match records; when
additionally no match records are found, the matched count is `None`. -/
theorem extractMatchedCount_fallback (payload : List (String × PyVal))
    (h : (matchedCountCandidates payload).all
      (fun v => v.isNone || v.eqStr "") = true) :
    (coerceMatches payload ≠ [] →
      extractMatchedCount payload = .int (coerceMatches payload).length) ∧
    (coerceMatches payload = [] → extractMatchedCount payload = PyVal.none) := by
  have hfv : firstValue (matchedCountCandidates payload) = PyVal.none :=
    firstValue_none _ h
  constructor
  · intro hne
    have hie : (coerceMatches payload).isEmpty = false := by
      cases hx : coerceMatches payload with
      | nil => exact absurd hx hne
      | cons a l => rfl
    rw [extractMatchedCount]
    simp only [hfv, hie]
    rfl
  · intro he
    rw [extractMatchedCount]
    simp only [hfv, he]
    rfl

/-- C10 witness: a payload whose only content is one match record gets count
1, and a payload with neither aliases nor match records gets `None`. -/
theorem extractMatchedCount_fallback_witness :
    extractMatchedCount [("matches", .list [.dict [("data", .dict [])]])] =
      .int 1 ∧
    extractMatchedCount [("noise", .str "x")] = PyVal.none :=
  ⟨(extractMatchedCount_fallback
      [("matches", .list [.dict [("data", .dict [])]])] (by rfl)).1
      (by
        rw [show coerceMatches [("matches", .list [.dict [("data", .dict [])]])] =
          [PyVal.dict [("data", .dict [])]] from rfl]
        exact List.cons_ne_nil _ _),
    (extractMatchedCount_fallback [("noise", .str "x")] (by rfl)).2 rfl⟩

/- ── C9: configuration validation (routes_validation.py) ── -/

/-- The runbook lines one section entry contributes to `_iter_runbooks`
(routes_validation.py lines 22-46): only a mapping with a list-valued
`runbook` contributes, each line `str`-coerced. -/
def sectionRunbook (v : PyVal) : List String :=
  match v with
  | .dict kvs =>
    (match dictGetD kvs "runbook" (.list []) with
     | .list lines => lines.map PyVal.toStr
     | _ => [])
  | _ => []

/-- Embedding of `_iter_runbooks` (routes_validation.py lines 22-46):
defaults runbook, then every profile's, then every service's. -/
def iterRunbooks (config : List (String × PyVal)) : List String :=
  sectionRunbook (dictGetD config "defaults" (.dict [])) ++
    (asDict (dictGetD config "profiles" (.dict []))).flatMap
      (fun kv => sectionRunbook kv.2) ++
    (asDict (dictGetD config "services" (.dict []))).flatMap
      (fun kv => sectionRunbook kv.2)

/-- Fuel-bounded model of `string.Formatter().parse`, keeping only the field
names: `\x7b\x7b` and `\x7d\x7d` are literal braces, a field runs to the next
`\x7d` with the name cut at the first `!` or `:`, and an unmatched brace is a
`ValueError`.  Nested braces inside a format spec are outside the modelled
fragment.  Every step consumes at least one character, so the fuel used by
`formatterParse` is never exhausted. -/
def parseFieldsAux : Nat → List Char → Except String (List String)
  | 0, _ => .error "format string too long"
  | Nat.succ fuel, cs =>
    match cs with
    | [] => .ok []
    | '\x7b' :: rest =>
      (match rest with
       | '\x7b' :: rest2 => parseFieldsAux fuel rest2
       | _ =>
         (match List.span (fun c => c != '\x7d') rest with
          | (fieldPart, rem) =>
            (match rem with
             | '\x7d' :: rest2 =>
               (parseFieldsAux fuel rest2).map fun fs =>
                 String.mk (fieldPart.takeWhile fun c => c != '!' && c != ':') :: fs
             | _ => .error "Single '\x7b' encountered in format string")))
    | '\x7d' :: rest =>
      (match rest with
       | '\x7d' :: rest2 => parseFieldsAux fuel rest2
       | _ => .error "Single '\x7d' encountered in format string")
    | _ :: rest => parseFieldsAux fuel rest

/-- Field names of one format string (model of `formatter.parse(line)` with
the `field_name is None` entries dropped). -/
def formatterParse (line : String) : Except String (List String) :=
  parseFieldsAux (line.data.length + 1) line.data

/-- `ALLOWED_PLACEHOLDERS` (routes_validation.py line 12). -/
def allowedPlaceholders : List String :=
  ["host", "service", "container", "monitor"]

/-- Embedding of `_validate_placeholders` (routes_validation.py lines
49-63): an error per disallowed field name, an error per line whose
placeholder syntax does not parse. -/
def placeholderErrors (config : List (String × PyVal)) : List String :=
  (iterRunbooks config).flatMap fun line =>
    match formatterParse line with
    | .ok fields =>
      fields.filterMap fun f =>
        if allowedPlaceholders.contains f then Option.none
        else some ("Unknown placeholder '\x7b" ++ f ++ "\x7d' in runbook: " ++ line)
    | .error e =>
      ["Invalid runbook placeholder syntax: " ++ line ++ " (" ++ e ++ ")"]

/-- Embedding of `_validate_references` (routes_validation.py lines 66-102):
dangling `default_group`/`default_topic`, dangling route group/topic names,
and service references to missing profiles. -/
def referenceErrors (config : List (String × PyVal)) : List String :=
  (match dictGetD config "groups" (.dict []) with
   | .dict gkvs =>
     (if (dictGet config "default_group").truthy &&
          !keyMem (dictGet config "default_group") gkvs then
        ["default_group not found in groups: " ++
          (dictGet config "default_group").toStr]
      else [])
   | _ => []) ++
  (match dictGetD config "topics" (.dict []) with
   | .dict tkvs =>
     (if (dictGet config "default_topic").truthy &&
          !keyMem (dictGet config "default_topic") tkvs then
        ["default_topic not found in topics: " ++
          (dictGet config "default_topic").toStr]
      else [])
   | _ => []) ++
  (match dictGetD config "groups" (.dict []), dictGetD config "topics" (.dict []) with
   | .dict gkvs, .dict tkvs =>
     (asList (dictGetD config "routes" (.list []))).flatMap fun route =>
       match route with
       | .dict rkvs =>
         (if (dictGet rkvs "group").truthy &&
              !keyMem (dictGet rkvs "group") gkvs then
            ["route group not found in groups: " ++ (dictGet rkvs "group").toStr]
          else []) ++
         (if (dictGet rkvs "topic").truthy &&
              !keyMem (dictGet rkvs "topic") tkvs then
            ["route topic not found in topics: " ++ (dictGet rkvs "topic").toStr]
          else [])
       | _ => []
   | _, _ => []) ++
  (match dictGetD config "profiles" (.dict []),
      dictGetD config "services" (.dict []) with
   | .dict pkvs, .dict skvs =>
     skvs.flatMap fun kv =>
       match kv.2 with
       | .dict svkvs =>
         (asList (dictGetD svkvs "profiles" (.list []))).flatMap fun p =>
           if !keyMem p pkvs then
             ["service '" ++ kv.1 ++ "' references missing profile '" ++
               p.toStr ++ "'"]
           else []
       | _ => []
   | _, _ => [])

/-- `LIST_OPS` (routes_validation.py line 13). -/
def listOpValues : List String :=
  ["contains_any", "in", "prefix_in"]

/-- The error a single rule contributes to `_validate_list_ops`
(routes_validation.py lines 108-115 and 122-129): a list operator with a
non-list value is flagged; a non-mapping rule or match block is skipped. -/
def ruleListOpError (rule : PyVal) : List String :=
  match rule with
  | .dict rkvs =>
    (match dictGetD rkvs "match" (.dict []) with
     | .dict mkvs =>
       (if (listOpValues.any fun s => (dictGet mkvs "op").eqStr s) &&
            !(dictGet mkvs "value").isList then
          ["Rule op '" ++ (dictGet mkvs "op").toStr ++ "' requires list value: " ++
            (PyVal.dict mkvs).toStr]
        else [])
     | _ => [])
  | _ => []

/-- Embedding of `_validate_list_ops` (routes_validation.py lines 105-131):
the drop section, then every profile's `p1` list. -/
def listOpsErrors (config : List (String × PyVal)) : List String :=
  (asList (dictGetD config "drop" (.list []))).flatMap ruleListOpError ++
    (asDict (dictGetD config "profiles" (.dict []))).flatMap fun kv =>
      match kv.2 with
      | .dict pkvs => (asList (dictGetD pkvs "p1" (.list []))).flatMap ruleListOpError
      | _ => []

/-- The extra validation stage of `validate_routes_config`
(routes_validation.py lines 145-148). -/
def validateExtra (config : List (String × PyVal)) : List String :=
  placeholderErrors config ++ referenceErrors config ++ listOpsErrors config

/-- Embedding of the extra-validation stage of `validate_routes_config`
(routes_validation.py lines 145-150): a non-empty error list raises
`ValueError` with the joined messages.  The preceding JSON-schema stage is
represented by the `schemaValid` hypothesis of the theorem below (the schema
file `routes.schema.json` is not under `src/`). -/
def validateRoutesConfig (config : List (String × PyVal)) : Except String Unit :=
  match validateExtra config with
  | [] => .ok ()
  | errs => .error ("Invalid routes.yml config:\n" ++ String.intercalate "\n" errs)

/-- Modelled from the spec: `routes.schema.json` — the document shape the
JSON-schema stage of `validate_routes_config` enforces — is not under
`src/`.  Per §3 and §6 of the spec, a schema-valid document's `groups`,
`topics`, `profiles` and `services` sections are mappings (profiles and
services mapping names to mappings) and `routes` and `drop` are lists of
mappings. -/
def schemaValid (config : List (String × PyVal)) : Bool :=
  (dictGetD config "groups" (.dict [])).isDict &&
  (dictGetD config "topics" (.dict [])).isDict &&
  (dictGetD config "profiles" (.dict [])).isDict &&
  (dictGetD config "services" (.dict [])).isDict &&
  (dictGetD config "routes" (.list [])).isList &&
  (dictGetD config "drop" (.list [])).isList &&
  (asList (dictGetD config "routes" (.list []))).all PyVal.isDict &&
  (asList (dictGetD config "drop" (.list []))).all PyVal.isDict &&
  (asDict (dictGetD config "profiles" (.dict []))).all (fun kv => kv.2.isDict) &&
  (asDict (dictGetD config "services" (.dict []))).all (fun kv => kv.2.isDict)

/-- A dangling group, topic or profile reference (the defect classes of the
claim, stated over the document): a truthy `default_group`/`default_topic`
that is not a key of `groups`/`topics`, a route with a truthy group/topic
name not in `groups`/`topics`, or a service profile reference missing from
`profiles`. -/
def hasDanglingReference (config : List (String × PyVal)) : Bool :=
  ((dictGet config "default_group").truthy &&
    !keyMem (dictGet config "default_group")
      (asDict (dictGetD config "groups" (.dict [])))) ||
  ((dictGet config "default_topic").truthy &&
    !keyMem (dictGet config "default_topic")
      (asDict (dictGetD config "topics" (.dict [])))) ||
  ((asList (dictGetD config "routes" (.list []))).any fun route =>
    match route with
    | .dict rkvs =>
      ((dictGet rkvs "group").truthy &&
        !keyMem (dictGet rkvs "group")
          (asDict (dictGetD config "groups" (.dict [])))) ||
      ((dictGet rkvs "topic").truthy &&
        !keyMem (dictGet rkvs "topic")
          (asDict (dictGetD config "topics" (.dict []))))
    | _ => false) ||
  ((asDict (dictGetD config "services" (.dict []))).any fun kv =>
    match kv.2 with
    | .dict svkvs =>
      (asList (dictGetD svkvs "profiles" (.list []))).any fun p =>
        !keyMem p (asDict (dictGetD config "profiles" (.dict [])))
    | _ => false)

/-- A runbook step with a disallowed placeholder. -/
def hasDisallowedPlaceholder (config : List (String × PyVal)) : Bool :=
  (iterRunbooks config).any fun line =>
    match formatterParse line with
    | .ok fields => fields.any fun f => !allowedPlaceholders.contains f
    | .error _ => false

/-- A rule whose operator is a list operator while its value is not a list
(with the rule and its match block being mappings, as the schema
guarantees). -/
def badListOpRule (rule : PyVal) : Bool :=
  match rule with
  | .dict rkvs =>
    (match dictGetD rkvs "match" (.dict []) with
     | .dict mkvs =>
       (listOpValues.any fun s => (dictGet mkvs "op").eqStr s) &&
         !(dictGet mkvs "value").isList
     | _ => false)
  | _ => false

/-- A drop or p1 rule with a list operator and a non-list value. -/
def hasBadListOpRule (config : List (String × PyVal)) : Bool :=
  (asList (dictGetD config "drop" (.list []))).any badListOpRule ||
    (asDict (dictGetD config "profiles" (.dict []))).any fun kv =>
      match kv.2 with
      | .dict pkvs => (asList (dictGetD pkvs "p1" (.list []))).any badListOpRule
      | _ => false

theorem isDict_exists (v : PyVal) (h : v.isDict = true) :
    ∃ kvs, v = PyVal.dict kvs := by
  cases v <;> first
  | exact ⟨_, rfl⟩
  | exact absurd h (by simp [PyVal.isDict])

theorem placeholderErrors_ne_nil (config : List (String × PyVal))
    (h : hasDisallowedPlaceholder config = true) :
    placeholderErrors config ≠ [] := by
  rw [hasDisallowedPlaceholder, List.any_eq_true] at h
  obtain ⟨line, hline, hp⟩ := h
  cases hpf : formatterParse line with
  | error e => rw [hpf] at hp; exact absurd hp (by simp)
  | ok fields =>
    rw [hpf] at hp
    rw [List.any_eq_true] at hp
    obtain ⟨f, hf, hnc⟩ := hp
    simp only [Bool.not_eq_true'] at hnc
    have hmem : ("Unknown placeholder '\x7b" ++ f ++ "\x7d' in runbook: " ++ line) ∈
        placeholderErrors config := by
      rw [placeholderErrors]
      apply List.mem_flatMap.mpr
      refine ⟨line, hline, ?_⟩
      rw [hpf]
      exact List.mem_filterMap.mpr ⟨f, hf, by rw [if_neg (by rw [hnc]; simp)]⟩
    exact List.ne_nil_of_mem hmem

theorem badListOpRule_error (r : PyVal) (h : badListOpRule r = true) :
    ruleListOpError r ≠ [] := by
  cases r with
  | dict rkvs =>
    cases hm : dictGetD rkvs "match" (.dict []) with
    | dict mkvs =>
      simp only [badListOpRule, hm] at h
      simp only [ruleListOpError, hm]
      rw [if_pos h]
      exact List.cons_ne_nil _ _
    | none => simp only [badListOpRule, hm] at h; exact Bool.noConfusion h
    | bool b => simp only [badListOpRule, hm] at h; exact Bool.noConfusion h
    | int n => simp only [badListOpRule, hm] at h; exact Bool.noConfusion h
    | str s => simp only [badListOpRule, hm] at h; exact Bool.noConfusion h
    | list l => simp only [badListOpRule, hm] at h; exact Bool.noConfusion h
  | none => simp [badListOpRule] at h
  | bool b => simp [badListOpRule] at h
  | int n => simp [badListOpRule] at h
  | str s => simp [badListOpRule] at h
  | list l => simp [badListOpRule] at h

theorem listOpsErrors_ne_nil (config : List (String × PyVal))
    (h : hasBadListOpRule config = true) :
    listOpsErrors config ≠ [] := by
  simp only [hasBadListOpRule, Bool.or_eq_true] at h
  intro hnil
  rw [listOpsErrors] at hnil
  simp only [List.append_eq_nil] at hnil
  obtain ⟨hdrop, hprof⟩ := hnil
  rcases h with h | h
  · obtain ⟨r, hr, hbad⟩ := List.any_eq_true.mp h
    have hfr : ruleListOpError r = [] := by
      by_contra hne
      obtain ⟨e, he⟩ := List.exists_mem_of_ne_nil _ hne
      exact List.ne_nil_of_mem (List.mem_flatMap.mpr ⟨r, hr, he⟩) hdrop
    exact badListOpRule_error r hbad hfr
  · obtain ⟨kv, hkv, hc⟩ := List.any_eq_true.mp h
    cases hkv2 : kv.2 with
    | dict pkvs =>
      rw [hkv2] at hc
      simp only [] at hc
      obtain ⟨r, hr, hbad⟩ := List.any_eq_true.mp hc
      have hfr : ruleListOpError r = [] := by
        by_contra hne
        obtain ⟨e, he⟩ := List.exists_mem_of_ne_nil _ hne
        have hmem : e ∈ (asDict (dictGetD config "profiles" (.dict []))).flatMap
            fun kv => match kv.2 with
              | .dict pkvs =>
                (asList (dictGetD pkvs "p1" (.list []))).flatMap ruleListOpError
              | _ => [] := by
          apply List.mem_flatMap.mpr
          refine ⟨kv, hkv, ?_⟩
          rw [hkv2]
          exact List.mem_flatMap.mpr ⟨r, hr, he⟩
        exact List.ne_nil_of_mem hmem hprof
      exact badListOpRule_error r hbad hfr
    | none => rw [hkv2] at hc; simp at hc
    | bool b => rw [hkv2] at hc; simp at hc
    | int n => rw [hkv2] at hc; simp at hc
    | str s => rw [hkv2] at hc; simp at hc
    | list l => rw [hkv2] at hc; simp at hc

theorem referenceErrors_ne_nil (config : List (String × PyVal))
    (hg : (dictGetD config "groups" (.dict [])).isDict = true)
    (ht : (dictGetD config "topics" (.dict [])).isDict = true)
    (hp : (dictGetD config "profiles" (.dict [])).isDict = true)
    (hs : (dictGetD config "services" (.dict [])).isDict = true)
    (h : hasDanglingReference config = true) :
    referenceErrors config ≠ [] := by
  obtain ⟨gkvs, hgkvs⟩ := isDict_exists _ hg
  obtain ⟨tkvs, htkvs⟩ := isDict_exists _ ht
  obtain ⟨pkvs, hpkvs⟩ := isDict_exists _ hp
  obtain ⟨skvs, hskvs⟩ := isDict_exists _ hs
  simp only [hasDanglingReference, hgkvs, htkvs, hpkvs, hskvs, asDict,
    Bool.or_eq_true] at h
  intro hnil
  simp only [referenceErrors, hgkvs, htkvs, hpkvs, hskvs,
    List.append_eq_nil] at hnil
  obtain ⟨⟨⟨h1n, h2n⟩, h3n⟩, h4n⟩ := hnil
  rcases h with ((h1 | h2) | h3) | h4
  · rw [if_pos h1] at h1n
    simp at h1n
  · rw [if_pos h2] at h2n
    simp at h2n
  · obtain ⟨route, hroute, hcond⟩ := List.any_eq_true.mp h3
    have hfr : (match route with
        | PyVal.dict rkvs =>
          (if (dictGet rkvs "group").truthy &&
              !keyMem (dictGet rkvs "group") gkvs then
            ["route group not found in groups: " ++ (dictGet rkvs "group").toStr]
          else []) ++
          (if (dictGet rkvs "topic").truthy &&
              !keyMem (dictGet rkvs "topic") tkvs then
            ["route topic not found in topics: " ++ (dictGet rkvs "topic").toStr]
          else [])
        | _ => []) = [] := by
      by_contra hne
      obtain ⟨e, he⟩ := List.exists_mem_of_ne_nil _ hne
      exact List.ne_nil_of_mem (List.mem_flatMap.mpr ⟨route, hroute, he⟩) h3n
    cases route with
    | dict rkvs =>
      simp only [] at hcond hfr
      rw [Bool.or_eq_true] at hcond
      rw [List.append_eq_nil] at hfr
      rcases hcond with hcg | hct
      · have := hfr.1
        rw [if_pos hcg] at this
        simp at this
      · have := hfr.2
        rw [if_pos hct] at this
        simp at this
    | none => simp at hcond
    | bool b => simp at hcond
    | int n => simp at hcond
    | str s => simp at hcond
    | list l => simp at hcond
  · obtain ⟨kv, hkv, hcsvc⟩ := List.any_eq_true.mp h4
    have hfk : (match kv.2 with
        | PyVal.dict svkvs =>
          (asList (dictGetD svkvs "profiles" (.list []))).flatMap fun p =>
            if !keyMem p pkvs then
              ["service '" ++ kv.1 ++ "' references missing profile '" ++
                p.toStr ++ "'"]
            else []
        | _ => []) = [] := by
      by_contra hne
      obtain ⟨e, he⟩ := List.exists_mem_of_ne_nil _ hne
      exact List.ne_nil_of_mem (List.mem_flatMap.mpr ⟨kv, hkv, he⟩) h4n
    have hcontra : ∀ (v : PyVal),
        (match v with
          | PyVal.dict svkvs =>
            (asList (dictGetD svkvs "profiles" (.list []))).any fun p =>
              !keyMem p pkvs
          | _ => false) = true →
        (match v with
          | PyVal.dict svkvs =>
            (asList (dictGetD svkvs "profiles" (.list []))).flatMap fun p =>
              if !keyMem p pkvs then
                ["service '" ++ kv.1 ++ "' references missing profile '" ++
                  p.toStr ++ "'"]
              else []
          | _ => []) = [] → False := by
      intro v hc hf
      cases v with
      | dict svkvs =>
        simp only [] at hc hf
        obtain ⟨pp, hpp, hnk⟩ := List.any_eq_true.mp hc
        have hfp : (if !keyMem pp pkvs then
            ["service '" ++ kv.1 ++ "' references missing profile '" ++
              pp.toStr ++ "'"]
          else []) = [] := by
          by_contra hne
          obtain ⟨e, he⟩ := List.exists_mem_of_ne_nil _ hne
          exact List.ne_nil_of_mem (List.mem_flatMap.mpr ⟨pp, hpp, he⟩) hf
        rw [if_pos hnk] at hfp
        simp at hfp
      | none => simp at hc
      | bool b => simp at hc
      | int n => simp at hc
      | str s => simp at hc
      | list l => simp at hc
    exact hcontra kv.2 hcsvc hfk

/-- C9: for every configuration document that passes the JSON-schema check,
`validate_routes_config` raises a fatal error — the document is rejected and
never applied — whenever the document holds a dangling group, topic or
profile reference, a runbook step with a disallowed placeholder, or a drop or
p1 rule whose operator is `contains_any`/`in`/`prefix_in` with a non-list
value. -/
theorem validateRoutesConfig_rejects (config : List (String × PyVal))
    (hschema : schemaValid config = true)
    (hdefect : hasDanglingReference config = true ∨
      hasDisallowedPlaceholder config = true ∨
      hasBadListOpRule config = true) :
    ∃ e, validateRoutesConfig config = .error e := by
  simp only [schemaValid, Bool.and_eq_true] at hschema
  obtain ⟨⟨⟨⟨⟨⟨⟨⟨⟨hg2, ht2⟩, hp2⟩, hs2⟩, -⟩, -⟩, -⟩, -⟩, -⟩, -⟩ := hschema
  have hne : validateExtra config ≠ [] := by
    rw [validateExtra]
    intro hnil
    simp only [List.append_eq_nil] at hnil
    obtain ⟨⟨hpl, href⟩, hlo⟩ := hnil
    rcases hdefect with hd | hd | hd
    · exact referenceErrors_ne_nil config hg2 ht2 hp2 hs2 hd href
    · exact placeholderErrors_ne_nil config hd hpl
    · exact listOpsErrors_ne_nil config hd hlo
  obtain ⟨e, rest, hx⟩ := List.exists_cons_of_ne_nil hne
  refine ⟨"Invalid routes.yml config:\n" ++ String.intercalate "\n" (e :: rest), ?_⟩
  rw [validateRoutesConfig, hx]

/-- C9 witness: a schema-valid document whose `default_group` names a group
that does not exist is rejected. -/
theorem validateRoutesConfig_rejects_witness :
    ∃ e, validateRoutesConfig [("default_group", .str "g")] = .error e :=
  validateRoutesConfig_rejects [("default_group", .str "g")] (by rfl)
    (.inl (by rfl))
